import Mathlib

/-!
Verification of the KanBan server's task/column mutation subsystem
(`src/server/index.js`): status resolution (`resolveStatusKey`), column key
derivation (`slugify`, `ensureUniqueKey`), the task-update handler
(`PUT /tasks/:id`) with its per-field diff-and-log policy, and the
column-deletion handler (`DELETE /columns/:key`) with task migration.

The JavaScript code is embedded shallowly: strings are Lean `String`s,
JS `Date` values are epoch milliseconds (`Nat`), `undefined`/absent JSON
fields are `Option.none`, MongoDB documents are plain structures and the
per-user collections are Lean lists.  Handlers become pure functions
returning `Except` for the HTTP-400 error paths.
-/

deriving instance DecidableEq for Except

namespace KanBan

/-- Activity `type` enum from the task schema: `["create", "update", "status"]`. -/
inductive ActivityType where
  | create
  | update
  | status
deriving DecidableEq

/-- Embedded activity subdocument `{ type, message, at }`; `at` (a JS `Date`)
is modelled as epoch milliseconds. -/
structure Activity where
  type : ActivityType
  message : String
  atMs : Nat
deriving DecidableEq

/-- Task priority enum `["low", "medium", "high", "urgent"]`. -/
inductive Priority where
  | low
  | medium
  | high
  | urgent
deriving DecidableEq

/-- The string value of a priority, as interpolated into activity messages. -/
def Priority.text : Priority → String
  | .low => "low"
  | .medium => "medium"
  | .high => "high"
  | .urgent => "urgent"

/-- Column document (per-user fields only): `{ key, label }`. -/
structure Column where
  key : String
  label : String
deriving DecidableEq

/-- Task document (per-user fields only): title, description, status,
dueDate (nullable date as epoch ms), priority, embedded activities. -/
structure Task where
  title : String
  description : String
  status : String
  dueDate : Option Nat
  priority : Priority
  activities : List Activity
deriving DecidableEq

/-- A parsed `updateTaskSchema` body.  `none` means the field is absent from
the patch; for `dueDate`, `some none` is an explicit null/empty (clear) and
`some (some ms)` a parsed date string. -/
structure TaskPatch where
  title : Option String := none
  description : Option String := none
  status : Option String := none
  priority : Option Priority := none
  dueDate : Option (Option Nat) := none
deriving DecidableEq

/-- Zod validity of an update patch: `title`/`status`, when present, are
non-empty (`z.string().min(1)`), and at least one field is provided. -/
def TaskPatch.isValid (p : TaskPatch) : Bool :=
  (match p.title with | some x => x != "" | none => true) &&
  (match p.status with | some s => s != "" | none => true) &&
  (p.title.isSome || p.description.isSome || p.status.isSome ||
    p.priority.isSome || p.dueDate.isSome)

/-! ## JS string primitives used by `resolveStatusKey` / `slugify` -/

/-- JS `String.prototype.toLowerCase` (ASCII fragment). -/
def jsToLower (s : String) : String :=
  String.mk (s.data.map Char.toLower)

/-- JS `String.prototype.trim` (ASCII whitespace fragment). -/
def jsTrim (s : String) : String :=
  String.mk (((s.data.dropWhile Char.isWhitespace).reverse.dropWhile
      Char.isWhitespace).reverse)

/-- Character class `[a-z0-9]` of the slug regexes. -/
def isAlnumLowerChar (c : Char) : Bool :=
  ('a' ≤ c && c ≤ 'z') || ('0' ≤ c && c ≤ '9')

/-- Worker for `.replace(/[^a-z0-9]+/g, "-")`: `inRun` records whether we are
inside a run of non-matching characters already replaced by a hyphen. -/
def collapseAux : Bool → List Char → List Char
  | _, [] => []
  | inRun, c :: rest =>
    if isAlnumLowerChar c then c :: collapseAux false rest
    else if inRun then collapseAux true rest
    else '-' :: collapseAux true rest

/-- JS `.replace(/[^a-z0-9]+/g, "-")`: collapse each run of characters
outside `[a-z0-9]` to a single hyphen. -/
def collapseNonAlnum (l : List Char) : List Char :=
  collapseAux false l

/-- One step of `.replace(/(^-|-$)+/g, "")`: the regex can only consume the
single hyphen at position 0. -/
def dropLeadHyphen : List Char → List Char
  | '-' :: rest => rest
  | l => l

/-- The other step of `.replace(/(^-|-$)+/g, "")`: the single final hyphen. -/
def dropTrailHyphen (l : List Char) : List Char :=
  (dropLeadHyphen l.reverse).reverse

/-- JS `.replace(/(^-|-$)+/g, "")`: removes the hyphen at position 0 and the
hyphen at the final position (at most one each, matching the regex with the
global flag, which never rescans). -/
def stripEdgeHyphens (l : List Char) : List Char :=
  dropTrailHyphen (dropLeadHyphen l)

/-- Shared pipeline `value.toLowerCase().trim().replace(/[^a-z0-9]+/g, "-")
.replace(/(^-|-$)+/g, "")` of `normalize` (inside `resolveStatusKey`) and
`slugify`. -/
def normalizePipeline (s : String) : List Char :=
  stripEdgeHyphens (collapseNonAlnum (jsTrim (jsToLower s)).data)

/-- The `normalize` helper inside `resolveStatusKey`. -/
def normalize (s : String) : String :=
  String.mk (normalizePipeline s)

/-- JS global replacement of every hyphen by the empty string, used for the
"compact" comparison tier. -/
def compact (s : String) : String :=
  String.mk (s.data.filter (fun c => c ≠ '-'))

/-- `slugify`: normalize pipeline, then `.slice(0, 40)`, then
`|| "column"` for an empty result. -/
def slugify (label : String) : String :=
  let r := (normalizePipeline label).take 40
  if r = [] then "column" else String.mk r

/-- `resolveStatusKey(columns, status)`: `null` for an empty column list;
empty/absent desired value falls back to the first column's key (JS
`status || columns[0].key`); exact key match wins; otherwise the first
column whose label matches case-insensitively, by normalized form, or by
hyphen-free normalized form. -/
def resolveStatusKey (columns : List Column) (status : Option String) :
    Option String :=
  match columns with
  | [] => none
  | c0 :: _ =>
    let desired :=
      match status with
      | some s => if s = "" then c0.key else s
      | none => c0.key
    match columns.find? (fun c => c.key == desired) with
    | some c => some c.key
    | none =>
      let lowered := jsToLower desired
      let normalized := normalize desired
      let normalizedCompact := compact normalized
      match columns.find? (fun c =>
          jsToLower c.label == lowered ||
          normalize c.label == normalized ||
          compact (normalize c.label) == normalizedCompact) with
      | some c => some c.key
      | none => none

/-- Fuel-bounded worker for `ensureUniqueKey`'s while loop; the fuel chosen
in `ensureUniqueKey` always suffices because the candidate keys are distinct
while `existing` is finite. -/
def ensureUniqueKeyAux (existing : List String) (baseKey : String) :
    Nat → String → Nat → String
  | 0, key, _ => key
  | fuel + 1, key, suffix =>
    if key ∈ existing then
      ensureUniqueKeyAux existing baseKey fuel
        (baseKey ++ "-" ++ toString suffix) (suffix + 1)
    else key

/-- `ensureUniqueKey(baseKey, userId)`: the owner's existing column keys are
passed as a list; append `-2`, `-3`, … until the key is unused. -/
def ensureUniqueKey (existing : List String) (baseKey : String) : String :=
  ensureUniqueKeyAux existing baseKey (existing.length + 1) baseKey 2

/-- `map.has(key)` for the map built by `getColumnMap`. -/
def mapHas (columns : List Column) (k : String) : Bool :=
  columns.any (fun c => c.key == k)

/-- `map.get(key)` for the map built by `getColumnMap`: `Map.set` in
insertion order means the **last** column with a given key wins. -/
def lookupLabelLast (columns : List Column) (k : String) : Option String :=
  (columns.reverse.find? (fun c => c.key == k)).map (·.label)

/-- Zero-padding to two digits for the month/day of an ISO date. -/
def pad2 (n : Nat) : String :=
  if n < 10 then "0" ++ toString n else toString n

/-- Zero-padding to four digits for the year of an ISO date. -/
def pad4 (n : Nat) : String :=
  if n < 10 then "000" ++ toString n
  else if n < 100 then "00" ++ toString n
  else if n < 1000 then "0" ++ toString n
  else toString n

/-- `formatActivityDate = (date) => date.toISOString().slice(0, 10)`:
the UTC calendar date `YYYY-MM-DD` of an epoch-millisecond timestamp
(standard civil-from-days conversion, valid for years 0–9999). -/
def formatActivityDate (ms : Nat) : String :=
  let z := ms / 86400000 + 719468
  let era := z / 146097
  let doe := z % 146097
  let yoe := (doe - doe / 1460 + doe / 36524 - doe / 146096) / 365
  let doy := doe - (365 * yoe + yoe / 4 - yoe / 100)
  let mp := (5 * doy + 2) / 153
  let d := doy - (153 * mp + 2) / 5 + 1
  let m := if mp < 10 then mp + 3 else mp - 9
  let y := if m ≤ 2 then era * 400 + yoe + 1 else era * 400 + yoe
  pad4 y ++ "-" ++ pad2 m ++ "-" ++ pad2 d

/-! ## The `PUT /tasks/:id` mutation engine -/

/-- The handler's title branch: `if ("title" in patch && patch.title !==
task.title)` set the title and push an update activity.  The comparison is
against the raw patch string, but the task schema declares `trim: true` on
`title`, so mongoose's setter stores the **trimmed** value. -/
def stepTitle (t : Task) (p : TaskPatch) (now : Nat) : Task :=
  match p.title with
  | some x =>
    if x ≠ t.title then
      { t with title := jsTrim x,
               activities := t.activities ++
                 [⟨ActivityType.update, "Title updated", now⟩] }
    else t
  | none => t

/-- Whether the title branch set `hasChanges`. -/
def titleChanged (old : String) (p : TaskPatch) : Bool :=
  match p.title with
  | some x => x != old
  | none => false

/-- The handler's description branch (`patch.description || ""` equals the
given string for every string, so the assigned value is the patch value).
The comparison is against the raw patch string, but the task schema
declares `trim: true` on `description`, so mongoose's setter stores the
**trimmed** value. -/
def stepDescription (t : Task) (p : TaskPatch) (now : Nat) : Task :=
  match p.description with
  | some x =>
    if x ≠ t.description then
      { t with description := jsTrim x,
               activities := t.activities ++
                 [⟨ActivityType.update, "Description updated", now⟩] }
    else t
  | none => t

/-- Whether the description branch set `hasChanges`. -/
def descriptionChanged (old : String) (p : TaskPatch) : Bool :=
  match p.description with
  | some x => x != old
  | none => false

/-- The handler's priority branch; the message interpolates the **new**
priority (`task.priority` after assignment). -/
def stepPriority (t : Task) (p : TaskPatch) (now : Nat) : Task :=
  match p.priority with
  | some q =>
    if q ≠ t.priority then
      { t with priority := q,
               activities := t.activities ++
                 [⟨ActivityType.update, "Priority set to " ++ q.text, now⟩] }
    else t
  | none => t

/-- Whether the priority branch set `hasChanges`. -/
def priorityChanged (old : Priority) (p : TaskPatch) : Bool :=
  match p.priority with
  | some q => q != old
  | none => false

/-- The handler's dueDate branch: compares `getTime()` values with null
handled separately (modelled as `Option Nat` equality). -/
def stepDueDate (t : Task) (p : TaskPatch) (now : Nat) : Task :=
  match p.dueDate with
  | some v =>
    if v ≠ t.dueDate then
      { t with dueDate := v,
               activities := t.activities ++
                 [⟨ActivityType.update,
                   (match v with
                    | some ms => "Due date set to " ++ formatActivityDate ms
                    | none => "Due date cleared"), now⟩] }
    else t
  | none => t

/-- Whether the dueDate branch set `hasChanges`. -/
def dueDateChanged (old : Option Nat) (p : TaskPatch) : Bool :=
  match p.dueDate with
  | some v => v != old
  | none => false

/-- The tail of the handler after the status branch: priority then dueDate,
then the response `(task, hasChanges)`. -/
def finishUpdate (t : Task) (p : TaskPatch) (now : Nat) (acc : Bool) :
    Except String (Task × Bool) :=
  let t4 := stepPriority t p now
  let c4 := priorityChanged t.priority p
  let t5 := stepDueDate t4 p now
  let c5 := dueDateChanged t4.dueDate p
  Except.ok (t5, acc || c4 || c5)

/-- The `PUT /tasks/:id` handler body after the task is fetched: branches in
source order (title, description, status, priority, dueDate).  The status
branch is entered when the **raw** patch string differs from the stored
status; an unresolvable status returns the 400 error `"Invalid column"`
before the remaining branches run.  The returned `Bool` is `hasChanges`
(whether `task.save()` is called). -/
def applyUpdate (columns : List Column) (task : Task) (p : TaskPatch)
    (now : Nat) : Except String (Task × Bool) :=
  let t1 := stepTitle task p now
  let c1 := titleChanged task.title p
  let t2 := stepDescription t1 p now
  let c2 := descriptionChanged t1.description p
  match p.status with
  | some s =>
    if s ≠ t2.status then
      match resolveStatusKey columns (some s) with
      | none => Except.error "Invalid column"
      | some k =>
        if (k == "") || !(mapHas columns k) then Except.error "Invalid column"
        else
          let t3 := { t2 with
            status := k,
            activities := t2.activities ++
              [⟨ActivityType.status,
                "Moved to " ++ (lookupLabelLast columns k).getD "undefined",
                now⟩] }
          finishUpdate t3 p now (c1 || c2 || true)
    else finishUpdate t2 p now (c1 || c2)
  | none => finishUpdate t2 p now (c1 || c2)

/-- What the request leaves in the store: the task document is written back
(`task.save()`) only when `hasChanges` is true; an error response writes
nothing. -/
def persistAfterUpdate (columns : List Column) (stored : Task)
    (p : TaskPatch) (now : Nat) : Task :=
  match applyUpdate columns stored p now with
  | Except.error _ => stored
  | Except.ok (t, changed) => if changed then t else stored

/-! ## The `DELETE /columns/:key` handler -/

/-- `Column.deleteOne({userId, key})`: removes the first document with the
given key. -/
def deleteFirstByKey (columns : List Column) (k : String) : List Column :=
  match columns with
  | [] => []
  | c :: rest => if c.key = k then rest else c :: deleteFirstByKey rest k

/-- The `DELETE /columns/:key` handler: last-column guard, lookup by exact
key or case-insensitive label, migration-target computation and validation,
then `Task.updateMany` (status rewrite) and `Column.deleteOne`. -/
def deleteColumn (columns : List Column) (tasks : List Task) (key : String)
    (migrateTo : Option String) :
    Except String (List Column × List Task) :=
  if columns.length ≤ 1 then
    Except.error "At least one column is required"
  else
    match columns.find? (fun c =>
        c.key == key || jsToLower c.label == jsToLower key) with
    | none => Except.error "Column not found"
    | some column =>
      let fallback := columns.find? (fun c => c.key != column.key)
      let migrateKey : Option String :=
        match migrateTo with
        | some m => if m ≠ "" then some m else fallback.map (·.key)
        | none => fallback.map (·.key)
      match migrateKey with
      | none => Except.error "Invalid migration target"
      | some mk =>
        if (mk == "") || (mk == column.key) then
          Except.error "Invalid migration target"
        else if !(columns.any (fun c => c.key == mk)) then
          Except.error "Invalid migration target"
        else
          Except.ok (deleteFirstByKey columns column.key,
            tasks.map (fun t =>
              if t.status = column.key then { t with status := mk } else t))

/-- Store state after a `DELETE /columns/:key` request: an error response
performs no store mutation. -/
def deleteColumnPersisted (columns : List Column) (tasks : List Task)
    (key : String) (migrateTo : Option String) : List Column × List Task :=
  match deleteColumn columns tasks key migrateTo with
  | Except.error _ => (columns, tasks)
  | Except.ok st => st

/-! ## Closed forms of the update handler (proved equal to `applyUpdate`) -/

/-- Resulting title of an update (trimmed by the schema setter when the
branch fires). -/
def updTitle (old : String) (p : TaskPatch) : String :=
  match p.title with
  | some x => if x = old then old else jsTrim x
  | none => old

/-- Resulting description of an update (trimmed by the schema setter when
the branch fires). -/
def updDescription (old : String) (p : TaskPatch) : String :=
  match p.description with
  | some x => if x = old then old else jsTrim x
  | none => old

/-- Resulting status of a successful update. -/
def updStatusKey (columns : List Column) (old : String) (p : TaskPatch) :
    String :=
  match p.status with
  | some s =>
    if s = old then old else (resolveStatusKey columns (some s)).getD old
  | none => old

/-- Resulting priority of an update. -/
def updPriority (old : Priority) (p : TaskPatch) : Priority :=
  p.priority.getD old

/-- Resulting dueDate of an update. -/
def updDueDate (old : Option Nat) (p : TaskPatch) : Option Nat :=
  p.dueDate.getD old

/-- Activities appended by the title branch. -/
def titleDelta (old : String) (p : TaskPatch) (now : Nat) : List Activity :=
  match p.title with
  | some x =>
    if x = old then [] else [⟨ActivityType.update, "Title updated", now⟩]
  | none => []

/-- Activities appended by the description branch. -/
def descriptionDelta (old : String) (p : TaskPatch) (now : Nat) :
    List Activity :=
  match p.description with
  | some x =>
    if x = old then []
    else [⟨ActivityType.update, "Description updated", now⟩]
  | none => []

/-- Activities appended by the status branch (in the non-error case). -/
def statusDelta (columns : List Column) (old : String) (p : TaskPatch)
    (now : Nat) : List Activity :=
  match p.status with
  | some s =>
    if s = old then []
    else
      match resolveStatusKey columns (some s) with
      | some k =>
        [⟨ActivityType.status,
          "Moved to " ++ (lookupLabelLast columns k).getD "undefined", now⟩]
      | none => []
  | none => []

/-- Activities appended by the priority branch. -/
def priorityDelta (old : Priority) (p : TaskPatch) (now : Nat) :
    List Activity :=
  match p.priority with
  | some q =>
    if q = old then []
    else [⟨ActivityType.update, "Priority set to " ++ q.text, now⟩]
  | none => []

/-- Activities appended by the dueDate branch. -/
def dueDateDelta (old : Option Nat) (p : TaskPatch) (now : Nat) :
    List Activity :=
  match p.dueDate with
  | some v =>
    if v = old then []
    else
      [⟨ActivityType.update,
        (match v with
         | some ms => "Due date set to " ++ formatActivityDate ms
         | none => "Due date cleared"), now⟩]
  | none => []

/-- All activities appended by one successful update, in branch order. -/
def allDeltas (columns : List Column) (t : Task) (p : TaskPatch) (now : Nat) :
    List Activity :=
  titleDelta t.title p now ++ (descriptionDelta t.description p now ++
    (statusDelta columns t.status p now ++ (priorityDelta t.priority p now ++
      dueDateDelta t.dueDate p now)))

/-- Whether the status branch set `hasChanges` (its raw-string gate). -/
def statusRawChanged (old : String) (p : TaskPatch) : Bool :=
  match p.status with
  | some s => s != old
  | none => false

/-- The handler's final `hasChanges` flag. -/
def changedB (t : Task) (p : TaskPatch) : Bool :=
  titleChanged t.title p || (descriptionChanged t.description p ||
    (statusRawChanged t.status p || (priorityChanged t.priority p ||
      dueDateChanged t.dueDate p)))

/-- Whether the status branch passes (no 400): absent status, raw-equal
status, or a resolution that lands on a non-empty key of the column map. -/
def statusOKB (columns : List Column) (old : String) (p : TaskPatch) : Bool :=
  match p.status with
  | some s =>
    if s = old then true
    else
      match resolveStatusKey columns (some s) with
      | some k => !((k == "") || !(mapHas columns k))
      | none => false
  | none => true

/-! ## Characterization of `applyUpdate` -/

theorem stepTitle_eq (t : Task) (p : TaskPatch) (now : Nat) :
    stepTitle t p now =
      { t with title := updTitle t.title p,
               activities := t.activities ++ titleDelta t.title p now } := by
  cases hp : p.title with
  | none => simp [stepTitle, updTitle, titleDelta, hp]
  | some x =>
    by_cases hx : x = t.title
    · simp [stepTitle, updTitle, titleDelta, hp, hx]
    · simp [stepTitle, updTitle, titleDelta, hp, hx]

theorem stepDescription_eq (t : Task) (p : TaskPatch) (now : Nat) :
    stepDescription t p now =
      { t with description := updDescription t.description p,
               activities := t.activities ++
                 descriptionDelta t.description p now } := by
  cases hp : p.description with
  | none => simp [stepDescription, updDescription, descriptionDelta, hp]
  | some x =>
    by_cases hx : x = t.description
    · simp [stepDescription, updDescription, descriptionDelta, hp, hx]
    · simp [stepDescription, updDescription, descriptionDelta, hp, hx]

theorem stepPriority_eq (t : Task) (p : TaskPatch) (now : Nat) :
    stepPriority t p now =
      { t with priority := updPriority t.priority p,
               activities := t.activities ++
                 priorityDelta t.priority p now } := by
  cases hp : p.priority with
  | none => simp [stepPriority, updPriority, priorityDelta, hp]
  | some x =>
    by_cases hx : x = t.priority
    · simp [stepPriority, updPriority, priorityDelta, hp, hx]
    · simp [stepPriority, updPriority, priorityDelta, hp, hx]

theorem stepDueDate_eq (t : Task) (p : TaskPatch) (now : Nat) :
    stepDueDate t p now =
      { t with dueDate := updDueDate t.dueDate p,
               activities := t.activities ++
                 dueDateDelta t.dueDate p now } := by
  cases hp : p.dueDate with
  | none => simp [stepDueDate, updDueDate, dueDateDelta, hp]
  | some x =>
    by_cases hx : x = t.dueDate
    · simp [stepDueDate, updDueDate, dueDateDelta, hp, hx]
    · simp [stepDueDate, updDueDate, dueDateDelta, hp, hx]

theorem finishUpdate_eq (t : Task) (p : TaskPatch) (now : Nat) (acc : Bool) :
    finishUpdate t p now acc =
      Except.ok ({ t with
          priority := updPriority t.priority p,
          dueDate := updDueDate t.dueDate p,
          activities := t.activities ++
            (priorityDelta t.priority p now ++
              dueDateDelta t.dueDate p now) },
        acc || (priorityChanged t.priority p ||
          dueDateChanged t.dueDate p)) := by
  simp only [finishUpdate]
  rw [stepPriority_eq, stepDueDate_eq]
  simp [List.append_assoc, Bool.or_assoc]

/-- `applyUpdate` in closed form: a 400 exactly when the status branch
fails, otherwise the patched record with the per-branch activities appended
in branch order and the disjunction of the per-branch change flags. -/
theorem applyUpdate_eq (columns : List Column) (t : Task) (p : TaskPatch)
    (now : Nat) :
    applyUpdate columns t p now =
      if statusOKB columns t.status p then
        Except.ok ({ t with
            title := updTitle t.title p,
            description := updDescription t.description p,
            status := updStatusKey columns t.status p,
            priority := updPriority t.priority p,
            dueDate := updDueDate t.dueDate p,
            activities := t.activities ++ allDeltas columns t p now },
          changedB t p)
      else Except.error "Invalid column" := by
  simp only [applyUpdate]
  rw [stepTitle_eq, stepDescription_eq]
  cases hps : p.status with
  | none =>
    have hok : statusOKB columns t.status p = true := by
      simp [statusOKB, hps]
    rw [hok, if_pos rfl, finishUpdate_eq]
    simp [hps, updStatusKey, allDeltas, statusDelta, changedB,
      statusRawChanged, List.append_assoc, Bool.or_assoc]
  | some s =>
    dsimp only
    by_cases hse : s = t.status
    · have hok : statusOKB columns t.status p = true := by
        simp [statusOKB, hps, hse]
      rw [hok, if_pos rfl, if_neg (not_not_intro hse), finishUpdate_eq]
      simp [hps, hse, updStatusKey, allDeltas, statusDelta,
        changedB, statusRawChanged, List.append_assoc, Bool.or_assoc]
    · rw [if_pos hse]
      cases hres : resolveStatusKey columns (some s) with
      | none =>
        have hfail : statusOKB columns t.status p = false := by
          simp [statusOKB, hps, hse, hres]
        rw [hfail, if_neg Bool.false_ne_true]
      | some k =>
        dsimp only
        by_cases hk : ((k == "") || !(mapHas columns k)) = true
        · rw [if_pos hk]
          have hfail : statusOKB columns t.status p = false := by
            simp [statusOKB, hps, hse, hres, hk]
          rw [hfail, if_neg Bool.false_ne_true]
        · rw [if_neg hk, finishUpdate_eq]
          have hok : statusOKB columns t.status p = true := by
            simp only [Bool.not_eq_true] at hk
            simp [statusOKB, hps, hse, hres, hk]
          rw [hok, if_pos rfl]
          simp [hps, hse, hres, updStatusKey, allDeltas,
            statusDelta, changedB, statusRawChanged, updTitle,
            updDescription, List.append_assoc, Bool.or_assoc]

/-! ## Supporting lemmas -/

theorem take2_data_append (pre x : String) (h : 2 ≤ pre.data.length) :
    (pre ++ x).data.take 2 = pre.data.take 2 := by
  rw [String.data_append, List.take_append_of_le_length h]

theorem mem_titleDelta {a : Activity} {old : String} {p : TaskPatch}
    {now : Nat} (h : a ∈ titleDelta old p now) :
    a.type = ActivityType.update ∧ a.message = "Title updated" := by
  simp only [titleDelta] at h
  split at h
  · split at h
    · simp at h
    · simp at h
      subst h
      exact ⟨rfl, rfl⟩
  · simp at h

theorem mem_descriptionDelta {a : Activity} {old : String} {p : TaskPatch}
    {now : Nat} (h : a ∈ descriptionDelta old p now) :
    a.type = ActivityType.update ∧ a.message = "Description updated" := by
  simp only [descriptionDelta] at h
  split at h
  · split at h
    · simp at h
    · simp at h
      subst h
      exact ⟨rfl, rfl⟩
  · simp at h

theorem mem_statusDelta {a : Activity} {columns : List Column} {old : String}
    {p : TaskPatch} {now : Nat} (h : a ∈ statusDelta columns old p now) :
    a.type = ActivityType.status ∧ ∃ x, a.message = "Moved to " ++ x := by
  simp only [statusDelta] at h
  split at h
  · split at h
    · simp at h
    · split at h
      · simp at h
        subst h
        exact ⟨rfl, _, rfl⟩
      · simp at h
  · simp at h

theorem mem_priorityDelta {a : Activity} {old : Priority} {p : TaskPatch}
    {now : Nat} (h : a ∈ priorityDelta old p now) :
    a.type = ActivityType.update ∧
      ∃ q : Priority, a.message = "Priority set to " ++ q.text := by
  simp only [priorityDelta] at h
  split at h
  · split at h
    · simp at h
    · simp at h
      subst h
      exact ⟨rfl, _, rfl⟩
  · simp at h

theorem mem_dueDateDelta {a : Activity} {old : Option Nat} {p : TaskPatch}
    {now : Nat} (h : a ∈ dueDateDelta old p now) :
    a.type = ActivityType.update ∧
      (a.message = "Due date cleared" ∨
        ∃ d, a.message = "Due date set to " ++ d) := by
  simp only [dueDateDelta] at h
  split at h
  · split at h
    · simp at h
    · simp at h
      subst h
      refine ⟨rfl, ?_⟩
      split
      · exact Or.inr ⟨_, rfl⟩
      · exact Or.inl rfl
  · simp at h

theorem titleDelta_none {old : String} {p : TaskPatch} {now : Nat}
    (h : p.title = none) : titleDelta old p now = [] := by
  simp [titleDelta, h]

theorem descriptionDelta_none {old : String} {p : TaskPatch} {now : Nat}
    (h : p.description = none) : descriptionDelta old p now = [] := by
  simp [descriptionDelta, h]

theorem statusDelta_none {columns : List Column} {old : String}
    {p : TaskPatch} {now : Nat} (h : p.status = none) :
    statusDelta columns old p now = [] := by
  simp [statusDelta, h]

theorem priorityDelta_none {old : Priority} {p : TaskPatch} {now : Nat}
    (h : p.priority = none) : priorityDelta old p now = [] := by
  simp [priorityDelta, h]

theorem dueDateDelta_none {old : Option Nat} {p : TaskPatch} {now : Nat}
    (h : p.dueDate = none) : dueDateDelta old p now = [] := by
  simp [dueDateDelta, h]

/-- If every field present in the patch already equals the task's stored
value under the handler's own change tests (raw-string comparison for
status), the handler changes nothing: the response is the unchanged record
and `hasChanges` is false. -/
theorem applyUpdate_eq_self (columns : List Column) (t : Task)
    (p : TaskPatch) (now : Nat)
    (ht : ∀ x, p.title = some x → x = t.title)
    (hd : ∀ x, p.description = some x → x = t.description)
    (hs : ∀ x, p.status = some x → x = t.status)
    (hpr : ∀ x, p.priority = some x → x = t.priority)
    (hdd : ∀ x, p.dueDate = some x → x = t.dueDate) :
    applyUpdate columns t p now = Except.ok (t, false) := by
  rw [applyUpdate_eq]
  have hok : statusOKB columns t.status p = true := by
    cases hps : p.status with
    | none => simp [statusOKB, hps]
    | some s => simp [statusOKB, hps, hs s hps]
  rw [hok, if_pos rfl]
  have e1 : updTitle t.title p = t.title := by
    cases hp : p.title with
    | none => simp [updTitle, hp]
    | some x => simp [updTitle, hp, ht x hp]
  have e2 : updDescription t.description p = t.description := by
    cases hp : p.description with
    | none => simp [updDescription, hp]
    | some x => simp [updDescription, hp, hd x hp]
  have e3 : updStatusKey columns t.status p = t.status := by
    cases hp : p.status with
    | none => simp [updStatusKey, hp]
    | some s => simp [updStatusKey, hp, hs s hp]
  have e4 : updPriority t.priority p = t.priority := by
    cases hp : p.priority with
    | none => simp [updPriority, hp]
    | some x => simp [updPriority, hp, hpr x hp]
  have e5 : updDueDate t.dueDate p = t.dueDate := by
    cases hp : p.dueDate with
    | none => simp [updDueDate, hp]
    | some x => simp [updDueDate, hp, hdd x hp]
  have d1 : titleDelta t.title p now = [] := by
    cases hp : p.title with
    | none => simp [titleDelta, hp]
    | some x => simp [titleDelta, hp, ht x hp]
  have d2 : descriptionDelta t.description p now = [] := by
    cases hp : p.description with
    | none => simp [descriptionDelta, hp]
    | some x => simp [descriptionDelta, hp, hd x hp]
  have d3 : statusDelta columns t.status p now = [] := by
    cases hp : p.status with
    | none => simp [statusDelta, hp]
    | some s => simp [statusDelta, hp, hs s hp]
  have d4 : priorityDelta t.priority p now = [] := by
    cases hp : p.priority with
    | none => simp [priorityDelta, hp]
    | some x => simp [priorityDelta, hp, hpr x hp]
  have d5 : dueDateDelta t.dueDate p now = [] := by
    cases hp : p.dueDate with
    | none => simp [dueDateDelta, hp]
    | some x => simp [dueDateDelta, hp, hdd x hp]
  have c1 : titleChanged t.title p = false := by
    cases hp : p.title with
    | none => simp [titleChanged, hp]
    | some x => simp [titleChanged, hp, ht x hp]
  have c2 : descriptionChanged t.description p = false := by
    cases hp : p.description with
    | none => simp [descriptionChanged, hp]
    | some x => simp [descriptionChanged, hp, hd x hp]
  have c3 : statusRawChanged t.status p = false := by
    cases hp : p.status with
    | none => simp [statusRawChanged, hp]
    | some s => simp [statusRawChanged, hp, hs s hp]
  have c4 : priorityChanged t.priority p = false := by
    cases hp : p.priority with
    | none => simp [priorityChanged, hp]
    | some x => simp [priorityChanged, hp, hpr x hp]
  have c5 : dueDateChanged t.dueDate p = false := by
    cases hp : p.dueDate with
    | none => simp [dueDateChanged, hp]
    | some x => simp [dueDateChanged, hp, hdd x hp]
  simp [allDeltas, d1, d2, d3, d4, d5, changedB, c1, c2, c3, c4, c5,
    e1, e2, e3, e4, e5]

/-- A status value that is one of the owner's column keys always resolves
(directly, or through the first-column fallback when it is empty). -/
theorem resolveStatusKey_isSome_of_mem {columns : List Column} {k : String}
    (h : k ∈ columns.map (·.key)) :
    (resolveStatusKey columns (some k)).isSome = true := by
  cases columns with
  | nil => simp at h
  | cons c0 rest =>
    simp only [resolveStatusKey]
    by_cases hk : k = ""
    · rw [if_pos hk, List.find?_cons_of_pos _ (by simp)]
      rfl
    · rw [if_neg hk]
      obtain ⟨c, hc, hck⟩ := List.mem_map.mp h
      have hsome : ((c0 :: rest).find? (fun c => c.key == k)).isSome :=
        List.find?_isSome.mpr ⟨c, hc, by simp [hck]⟩
      cases hfind : (c0 :: rest).find? (fun c => c.key == k) with
      | none =>
        rw [hfind] at hsome
        simp at hsome
      | some c' => rfl

/-- A key present in the column map has a label there. -/
theorem lookupLabelLast_isSome_of_mapHas {columns : List Column} {k : String}
    (h : mapHas columns k = true) :
    ∃ lbl, lookupLabelLast columns k = some lbl := by
  simp only [mapHas, List.any_eq_true] at h
  obtain ⟨c, hc, hck⟩ := h
  have hsome : ((columns.reverse).find? (fun c => c.key == k)).isSome :=
    List.find?_isSome.mpr ⟨c, by simp [hc], hck⟩
  cases hf : columns.reverse.find? (fun c => c.key == k) with
  | none => rw [hf] at hsome; simp at hsome
  | some c' => exact ⟨c'.label, by simp only [lookupLabelLast, hf, Option.map_some']⟩

/-- Unpacking `statusOKB` when the status branch is actually entered. -/
theorem statusOKB_some_resolved {columns : List Column} {old : String}
    {p : TaskPatch} {s : String} (hps : p.status = some s) (hse : s ≠ old)
    (hok : statusOKB columns old p = true) :
    ∃ k, resolveStatusKey columns (some s) = some k ∧ k ≠ "" ∧
      mapHas columns k = true := by
  simp only [statusOKB, hps] at hok
  rw [if_neg hse] at hok
  cases hres : resolveStatusKey columns (some s) with
  | none => rw [hres] at hok; simp at hok
  | some k =>
    rw [hres] at hok
    simp at hok
    exact ⟨k, rfl, hok.1, hok.2⟩

/-- With owner-unique keys, deleting by key removes every trace of that key. -/
theorem key_not_mem_deleteFirstByKey {columns : List Column} {k : String}
    (hnd : (columns.map (·.key)).Nodup) :
    k ∉ (deleteFirstByKey columns k).map (·.key) := by
  induction columns with
  | nil => simp [deleteFirstByKey]
  | cons c rest ih =>
    simp only [List.map_cons, List.nodup_cons] at hnd
    obtain ⟨hck, hrest⟩ := hnd
    by_cases h : c.key = k
    · simp only [deleteFirstByKey]
      rw [if_pos h]
      rw [h] at hck
      exact hck
    · simp only [deleteFirstByKey]
      rw [if_neg h]
      simp only [List.map_cons, List.mem_cons, not_or]
      exact ⟨fun hkc => h hkc.symm, ih hrest⟩

/-- Keys other than the deleted one survive the deletion. -/
theorem mem_keys_deleteFirstByKey_of_ne {columns : List Column}
    {k m : String} (hm : m ∈ columns.map (·.key)) (hne : m ≠ k) :
    m ∈ (deleteFirstByKey columns k).map (·.key) := by
  induction columns with
  | nil => simp at hm
  | cons c rest ih =>
    simp only [List.map_cons, List.mem_cons] at hm
    by_cases h : c.key = k
    · simp only [deleteFirstByKey]
      rw [if_pos h]
      cases hm with
      | inl h1 => exact absurd (h1.trans h) hne
      | inr h2 => exact h2
    · simp only [deleteFirstByKey]
      rw [if_neg h]
      simp only [List.map_cons, List.mem_cons]
      cases hm with
      | inl h1 => exact Or.inl h1
      | inr h2 => exact Or.inr (ih h2)

/-- With owner-unique keys, deleting column `c` by its key keeps every other
column. -/
theorem mem_deleteFirstByKey_of_ne {columns : List Column} {c c' : Column}
    (hnd : (columns.map (·.key)).Nodup) (hc : c ∈ columns)
    (hc' : c' ∈ columns) (hne : c' ≠ c) :
    c' ∈ deleteFirstByKey columns c.key := by
  induction columns with
  | nil => simp at hc
  | cons a rest ih =>
    simp only [List.map_cons, List.nodup_cons] at hnd
    obtain ⟨hak, hrest⟩ := hnd
    by_cases h : a.key = c.key
    · have hac : a = c := by
        cases List.mem_cons.mp hc with
        | inl h1 => exact h1.symm
        | inr h2 =>
          exfalso
          apply hak
          rw [h]
          exact List.mem_map_of_mem (fun x => x.key) h2
      simp only [deleteFirstByKey]
      rw [if_pos h]
      cases List.mem_cons.mp hc' with
      | inl h1 => exact absurd (h1.trans hac) hne
      | inr h2 => exact h2
    · simp only [deleteFirstByKey]
      rw [if_neg h]
      cases List.mem_cons.mp hc' with
      | inl h1 => exact List.mem_cons.mpr (Or.inl h1)
      | inr h2 =>
        have hcr : c ∈ rest := by
          cases List.mem_cons.mp hc with
          | inl h1 =>
            exfalso
            apply h
            rw [h1]
          | inr hr => exact hr
        exact List.mem_cons.mpr (Or.inr (ih hrest hcr h2))

/-- `find?` returns the unique element satisfying the predicate. -/
theorem find?_eq_of_unique {l : List Column} {pred : Column → Bool}
    {c : Column} (hc : c ∈ l) (hpc : pred c = true)
    (huniq : ∀ x ∈ l, pred x = true → x = c) :
    l.find? pred = some c := by
  induction l with
  | nil => simp at hc
  | cons a rest ih =>
    by_cases hpa : pred a = true
    · rw [List.find?_cons_of_pos _ hpa]
      exact congrArg some (huniq a (List.mem_cons_self a rest) hpa)
    · rw [List.find?_cons_of_neg _ hpa]
      apply ih
      · cases List.mem_cons.mp hc with
        | inl h1 =>
          exfalso
          apply hpa
          rw [← h1] at hpa ⊢
          exact hpc
        | inr h2 => exact h2
      · intro x hx hpx
        exact huniq x (List.mem_cons.mpr (Or.inr hx)) hpx

/-! ## Claim theorems -/

/-- Claim C4: status resolution over a column list.  An exact key match wins
(the two-column conjunct: `"in-progress"` hits the second column's key even
though the first column's label also matches after normalization); matching
is otherwise case- and separator-insensitive against labels, so for the
column `{key: "in-progress", label: "In Progress"}` the inputs
`"In Progress"`, `"in progress"`, `"IN-PROGRESS"` and `"inprogress"` all
resolve to `"in-progress"` while `"archive"` resolves to not-found; and an
absent or empty desired value resolves to the first column's key. -/
theorem c4_resolveStatusKey_resolution :
    (∀ (c0 : Column) (rest : List Column),
        resolveStatusKey (c0 :: rest) none = some c0.key) ∧
    (∀ (c0 : Column) (rest : List Column),
        resolveStatusKey (c0 :: rest) (some "") = some c0.key) ∧
    resolveStatusKey [⟨"in-progress", "In Progress"⟩]
        (some "In Progress") = some "in-progress" ∧
    resolveStatusKey [⟨"in-progress", "In Progress"⟩]
        (some "in progress") = some "in-progress" ∧
    resolveStatusKey [⟨"in-progress", "In Progress"⟩]
        (some "IN-PROGRESS") = some "in-progress" ∧
    resolveStatusKey [⟨"in-progress", "In Progress"⟩]
        (some "inprogress") = some "in-progress" ∧
    resolveStatusKey [⟨"in-progress", "In Progress"⟩]
        (some "archive") = none ∧
    resolveStatusKey [⟨"done", "In Progress"⟩, ⟨"in-progress", "Other"⟩]
        (some "in-progress") = some "in-progress" := by
  refine ⟨?_, ?_, by decide, by decide, by decide, by decide, by decide,
    by decide⟩
  · intro c0 rest
    simp only [resolveStatusKey]
    rw [List.find?_cons_of_pos _ (by simp)]
  · intro c0 rest
    simp only [resolveStatusKey]
    rw [if_pos trivial, List.find?_cons_of_pos _ (by simp)]

/-- Claim C5: column key derivation.  `slugify` lower-cases
(`"MiXeD Case"`), collapses non-alphanumeric runs to single hyphens
(`"a  b!!c"`), trims leading/trailing hyphens (`"!!wrapped!!"`), truncates
to 40 characters (the 50-character label), and yields the literal
`"column"` when the result is empty; in particular `"Needs Review!!"`
slugifies to `"needs-review"`, and `ensureUniqueKey` appends `-2`, `-3`, …
until the key is unused by the owner. -/
theorem c5_slugify_and_unique_keys :
    slugify "Needs Review!!" = "needs-review" ∧
    ensureUniqueKey ["needs-review"] "needs-review" = "needs-review-2" ∧
    ensureUniqueKey ["needs-review", "needs-review-2"] "needs-review" =
      "needs-review-3" ∧
    slugify "MiXeD Case" = "mixed-case" ∧
    slugify "a  b!!c" = "a-b-c" ∧
    slugify "  hello  " = "hello" ∧
    slugify "!!wrapped!!" = "wrapped" ∧
    slugify "!!!" = "column" ∧
    slugify "" = "column" ∧
    slugify "aaaaaaaaaabbbbbbbbbbccccccccccddddddddddeeeeeeeeee" =
      "aaaaaaaaaabbbbbbbbbbccccccccccdddddddddd" := by
  decide

/-- Claim C8: deleting a column when the owner has exactly one column fails
with the invariant-violation error, and the store (column list and all
tasks) is left completely unmodified. -/
theorem c8_delete_last_column_fails (columns : List Column)
    (tasks : List Task) (key : String) (migrateTo : Option String)
    (h : columns.length = 1) :
    deleteColumn columns tasks key migrateTo =
      Except.error "At least one column is required" ∧
    deleteColumnPersisted columns tasks key migrateTo = (columns, tasks) := by
  have h1 : deleteColumn columns tasks key migrateTo =
      Except.error "At least one column is required" := by
    simp only [deleteColumn]
    rw [if_pos (le_of_eq h)]
  exact ⟨h1, by simp only [deleteColumnPersisted, h1]⟩

/-- Witness for C8 at a concrete store: one column, one task. -/
theorem c8_delete_last_column_fails_witness :
    deleteColumn [⟨"todo", "To Do"⟩]
        [⟨"T", "", "todo", none, Priority.medium, []⟩] "todo" none =
      Except.error "At least one column is required" ∧
    deleteColumnPersisted [⟨"todo", "To Do"⟩]
        [⟨"T", "", "todo", none, Priority.medium, []⟩] "todo" none =
      ([⟨"todo", "To Do"⟩], [⟨"T", "", "todo", none, Priority.medium, []⟩]) :=
  c8_delete_last_column_fails _ _ _ _ (by decide)

/-- Claim C2: when the stored task's status is a real column key (the §3
invariant) and the patch carries a status string that resolves to no
column, the whole update is rejected with the 400 error and the persisted
task — including every other field in the same patch — is unchanged. -/
theorem c2_unresolvable_status_rejects_update (columns : List Column)
    (stored : Task) (p : TaskPatch) (now : Nat) (s : String)
    (hinv : stored.status ∈ columns.map (·.key))
    (hs : p.status = some s)
    (hfail : resolveStatusKey columns (some s) = none) :
    applyUpdate columns stored p now = Except.error "Invalid column" ∧
    persistAfterUpdate columns stored p now = stored := by
  have hne : s ≠ stored.status := by
    intro he
    have hres := resolveStatusKey_isSome_of_mem hinv
    rw [← he, hfail] at hres
    simp at hres
  have herr : applyUpdate columns stored p now =
      Except.error "Invalid column" := by
    rw [applyUpdate_eq]
    have hko : statusOKB columns stored.status p = false := by
      simp [statusOKB, hs, hne, hfail]
    rw [hko, if_neg Bool.false_ne_true]
  exact ⟨herr, by simp only [persistAfterUpdate, herr]⟩

/-- Witness for C2: patch `{title: "New title", status: "archive"}` against
a task in `"todo"`: rejected, and the title change is not persisted. -/
theorem c2_unresolvable_status_rejects_update_witness :
    applyUpdate [⟨"todo", "To Do"⟩]
        ⟨"T", "d", "todo", none, Priority.low, []⟩
        ⟨some "New title", none, some "archive", none, none⟩ 9 =
      Except.error "Invalid column" ∧
    persistAfterUpdate [⟨"todo", "To Do"⟩]
        ⟨"T", "d", "todo", none, Priority.low, []⟩
        ⟨some "New title", none, some "archive", none, none⟩ 9 =
      ⟨"T", "d", "todo", none, Priority.low, []⟩ :=
  c2_unresolvable_status_rejects_update _ _ _ _ "archive" (by decide) rfl
    (by decide)

/-- Counterexample to claim C6 as stated: the patch `{status:
"IN-PROGRESS"}` against a task whose status is `"in-progress"` has a
negative diff under the spec's resolved-key change test (the resolved key
equals the old status), yet the handler reports `hasChanges = true` (a
persistence write) and appends a status Activity, so the returned record is
not the unchanged one. -/
theorem c6_counterexample :
    TaskPatch.isValid ⟨none, none, some "IN-PROGRESS", none, none⟩ = true ∧
    resolveStatusKey [⟨"in-progress", "In Progress"⟩, ⟨"done", "Done"⟩]
        (some "IN-PROGRESS") =
      some (⟨"T", "", "in-progress", none, Priority.medium, []⟩ : Task).status ∧
    applyUpdate [⟨"in-progress", "In Progress"⟩, ⟨"done", "Done"⟩]
        ⟨"T", "", "in-progress", none, Priority.medium, []⟩
        ⟨none, none, some "IN-PROGRESS", none, none⟩ 0 =
      Except.ok (⟨"T", "", "in-progress", none, Priority.medium,
        [⟨ActivityType.status, "Moved to In Progress", 0⟩]⟩, true) ∧
    persistAfterUpdate [⟨"in-progress", "In Progress"⟩, ⟨"done", "Done"⟩]
        ⟨"T", "", "in-progress", none, Priority.medium, []⟩
        ⟨none, none, some "IN-PROGRESS", none, none⟩ 0 ≠
      ⟨"T", "", "in-progress", none, Priority.medium, []⟩ := by
  decide

/-- Claim C6, amended: the code's change tests compare the **raw** patch
values (raw-string comparison for status, not the resolved key).  When
every field present in the patch equals the task's stored value under
those tests, no persistence write occurs, no Activity is appended, and the
unchanged record is still returned. -/
theorem c6_no_change_no_write (columns : List Column) (t : Task)
    (p : TaskPatch) (now : Nat) (_hv : p.isValid = true)
    (ht : ∀ x, p.title = some x → x = t.title)
    (hd : ∀ x, p.description = some x → x = t.description)
    (hs : ∀ x, p.status = some x → x = t.status)
    (hpr : ∀ x, p.priority = some x → x = t.priority)
    (hdd : ∀ x, p.dueDate = some x → x = t.dueDate) :
    applyUpdate columns t p now = Except.ok (t, false) ∧
    persistAfterUpdate columns t p now = t := by
  have h1 := applyUpdate_eq_self columns t p now ht hd hs hpr hdd
  refine ⟨h1, ?_⟩
  simp [persistAfterUpdate, h1]

/-- Witness for the amended C6: a patch repeating the task's own title. -/
theorem c6_no_change_no_write_witness :
    applyUpdate [⟨"todo", "To Do"⟩]
        ⟨"T", "", "todo", none, Priority.medium, []⟩
        ⟨some "T", none, none, none, none⟩ 4 =
      Except.ok (⟨"T", "", "todo", none, Priority.medium, []⟩, false) ∧
    persistAfterUpdate [⟨"todo", "To Do"⟩]
        ⟨"T", "", "todo", none, Priority.medium, []⟩
        ⟨some "T", none, none, none, none⟩ 4 =
      ⟨"T", "", "todo", none, Priority.medium, []⟩ :=
  c6_no_change_no_write _ _ _ _ (by decide)
    (fun x hx => (Option.some.inj hx).symm)
    (fun x hx => nomatch hx)
    (fun x hx => nomatch hx)
    (fun x hx => nomatch hx)
    (fun x hx => nomatch hx)

/-- Counterexample to claim C1 as stated: patch `{status: "In Progress"}`
against a task in `"in-progress"` resolves to a key **equal** to the old
status, yet the handler appends a status Activity (and reports a change),
because its gate compares the raw patch string, not the resolved key. -/
theorem c1_counterexample :
    resolveStatusKey [⟨"in-progress", "In Progress"⟩] (some "In Progress") =
      some (⟨"T", "", "in-progress", none, Priority.medium, []⟩ : Task).status ∧
    applyUpdate [⟨"in-progress", "In Progress"⟩]
        ⟨"T", "", "in-progress", none, Priority.medium, []⟩
        ⟨none, none, some "In Progress", none, none⟩ 0 =
      Except.ok (⟨"T", "", "in-progress", none, Priority.medium,
        [⟨ActivityType.status, "Moved to In Progress", 0⟩]⟩, true) := by
  decide

/-- Claim C1, amended: in a successful update, a status-kind Activity is
appended iff the status field is present in the patch and its **raw string**
differs from the task's old status (even when the resolved key equals the
old status); when the branch fires, the appended Activity's message is
`"Moved to {label}"` with the resolved column's registered label. -/
theorem c1_status_activity_condition (columns : List Column) (t : Task)
    (p : TaskPatch) (now : Nat) (r : Task) (ch : Bool)
    (h : applyUpdate columns t p now = Except.ok (r, ch)) :
    ((∃ a ∈ r.activities.drop t.activities.length,
        a.type = ActivityType.status) ↔
      ∃ s, p.status = some s ∧ s ≠ t.status) ∧
    (∀ s, p.status = some s → s ≠ t.status →
      ∃ k lbl, resolveStatusKey columns (some s) = some k ∧
        lookupLabelLast columns k = some lbl ∧
        ∃ a ∈ r.activities.drop t.activities.length,
          a.type = ActivityType.status ∧
          a.message = "Moved to " ++ lbl) := by
  rw [applyUpdate_eq] at h
  cases hok : statusOKB columns t.status p with
  | false =>
    rw [hok] at h
    simp at h
  | true =>
    rw [hok, if_pos rfl] at h
    rw [Except.ok.injEq, Prod.mk.injEq] at h
    obtain ⟨hr, hch⟩ := h
    subst hr
    have hdrop : ({ t with
        title := updTitle t.title p,
        description := updDescription t.description p,
        status := updStatusKey columns t.status p,
        priority := updPriority t.priority p,
        dueDate := updDueDate t.dueDate p,
        activities := t.activities ++
          allDeltas columns t p now } : Task).activities.drop
          t.activities.length = allDeltas columns t p now := by
      dsimp only
      exact List.drop_left _ _
    rw [hdrop]
    constructor
    · constructor
      · rintro ⟨a, ha, hat⟩
        simp only [allDeltas, List.mem_append] at ha
        rcases ha with h1 | h2 | h3 | h4 | h5
        · simp [(mem_titleDelta h1).1] at hat
        · simp [(mem_descriptionDelta h2).1] at hat
        · cases hps : p.status with
          | none =>
            rw [statusDelta_none hps] at h3
            simp at h3
          | some s =>
            by_cases hse : s = t.status
            · rw [show statusDelta columns t.status p now = [] by
                simp [statusDelta, hps, hse]] at h3
              simp at h3
            · exact ⟨s, rfl, hse⟩
        · simp [(mem_priorityDelta h4).1] at hat
        · simp [(mem_dueDateDelta h5).1] at hat
      · rintro ⟨s, hps, hse⟩
        obtain ⟨k, hres, hk, hmh⟩ := statusOKB_some_resolved hps hse hok
        refine ⟨⟨ActivityType.status,
          "Moved to " ++ (lookupLabelLast columns k).getD "undefined",
          now⟩, ?_, rfl⟩
        simp only [allDeltas, List.mem_append]
        right; right; left
        simp [statusDelta, hps, hse, hres]
    · intro s hps hse
      obtain ⟨k, hres, hk, hmh⟩ := statusOKB_some_resolved hps hse hok
      obtain ⟨lbl, hlbl⟩ := lookupLabelLast_isSome_of_mapHas hmh
      refine ⟨k, lbl, hres, hlbl, ⟨ActivityType.status,
        "Moved to " ++ (lookupLabelLast columns k).getD "undefined", now⟩,
        ?_, rfl, ?_⟩
      · simp only [allDeltas, List.mem_append]
        right; right; left
        simp [statusDelta, hps, hse, hres]
      · simp [hlbl]

/-- Witness for the amended C1: moving a task from `"todo"` to `"done"`
appends exactly the status Activity `"Moved to Done"`. -/
theorem c1_status_activity_condition_witness :
    ((∃ a ∈ (⟨"T", "", "done", none, Priority.medium,
          [⟨ActivityType.create, "Task created", 0⟩,
           ⟨ActivityType.status, "Moved to Done", 3⟩]⟩ : Task).activities.drop
          (⟨"T", "", "todo", none, Priority.medium,
            [⟨ActivityType.create, "Task created", 0⟩]⟩ :
              Task).activities.length,
        a.type = ActivityType.status) ↔
      ∃ s, (⟨none, none, some "done", none, none⟩ : TaskPatch).status =
          some s ∧
        s ≠ (⟨"T", "", "todo", none, Priority.medium,
          [⟨ActivityType.create, "Task created", 0⟩]⟩ : Task).status) ∧
    (∀ s, (⟨none, none, some "done", none, none⟩ : TaskPatch).status =
        some s →
      s ≠ (⟨"T", "", "todo", none, Priority.medium,
        [⟨ActivityType.create, "Task created", 0⟩]⟩ : Task).status →
      ∃ k lbl, resolveStatusKey [⟨"todo", "To Do"⟩, ⟨"done", "Done"⟩]
          (some s) = some k ∧
        lookupLabelLast [⟨"todo", "To Do"⟩, ⟨"done", "Done"⟩] k =
          some lbl ∧
        ∃ a ∈ (⟨"T", "", "done", none, Priority.medium,
            [⟨ActivityType.create, "Task created", 0⟩,
             ⟨ActivityType.status, "Moved to Done", 3⟩]⟩ :
              Task).activities.drop
            (⟨"T", "", "todo", none, Priority.medium,
              [⟨ActivityType.create, "Task created", 0⟩]⟩ :
                Task).activities.length,
          a.type = ActivityType.status ∧
          a.message = "Moved to " ++ lbl) :=
  c1_status_activity_condition [⟨"todo", "To Do"⟩, ⟨"done", "Done"⟩]
    ⟨"T", "", "todo", none, Priority.medium,
      [⟨ActivityType.create, "Task created", 0⟩]⟩
    ⟨none, none, some "done", none, none⟩ 3
    ⟨"T", "", "done", none, Priority.medium,
      [⟨ActivityType.create, "Task created", 0⟩,
       ⟨ActivityType.status, "Moved to Done", 3⟩]⟩ true
    (by decide)

/-- Counterexample to claim C3 as stated: the valid patch `{status:
"In Progress"}` is not idempotent on a task in `"in-progress"`: each
application appends one more (spurious) status Activity, so the second
application changes the state again.  Likewise the valid patch
`{title: " x "}` on a task titled `"x"`: the gate compares the raw string
while the schema setter stores the trimmed one, so every application
appends a title Activity and writes. -/
theorem c3_counterexample :
    TaskPatch.isValid ⟨some " x ", none, none, none, none⟩ = true ∧
    applyUpdate [⟨"todo", "To Do"⟩]
        ⟨"x", "", "todo", none, Priority.medium, []⟩
        ⟨some " x ", none, none, none, none⟩ 1 =
      Except.ok (⟨"x", "", "todo", none, Priority.medium,
        [⟨ActivityType.update, "Title updated", 1⟩]⟩, true) ∧
    applyUpdate [⟨"todo", "To Do"⟩]
        ⟨"x", "", "todo", none, Priority.medium,
          [⟨ActivityType.update, "Title updated", 1⟩]⟩
        ⟨some " x ", none, none, none, none⟩ 1 =
      Except.ok (⟨"x", "", "todo", none, Priority.medium,
        [⟨ActivityType.update, "Title updated", 1⟩,
         ⟨ActivityType.update, "Title updated", 1⟩]⟩, true) ∧
    TaskPatch.isValid ⟨none, none, some "In Progress", none, none⟩ = true ∧
    applyUpdate [⟨"in-progress", "In Progress"⟩]
        ⟨"S", "", "in-progress", none, Priority.medium, []⟩
        ⟨none, none, some "In Progress", none, none⟩ 1 =
      Except.ok (⟨"S", "", "in-progress", none, Priority.medium,
        [⟨ActivityType.status, "Moved to In Progress", 1⟩]⟩, true) ∧
    applyUpdate [⟨"in-progress", "In Progress"⟩]
        ⟨"S", "", "in-progress", none, Priority.medium,
          [⟨ActivityType.status, "Moved to In Progress", 1⟩]⟩
        ⟨none, none, some "In Progress", none, none⟩ 1 =
      Except.ok (⟨"S", "", "in-progress", none, Priority.medium,
        [⟨ActivityType.status, "Moved to In Progress", 1⟩,
         ⟨ActivityType.status, "Moved to In Progress", 1⟩]⟩, true) ∧
    (⟨"S", "", "in-progress", none, Priority.medium,
        [⟨ActivityType.status, "Moved to In Progress", 1⟩,
         ⟨ActivityType.status, "Moved to In Progress", 1⟩]⟩ : Task) ≠
      ⟨"S", "", "in-progress", none, Priority.medium,
        [⟨ActivityType.status, "Moved to In Progress", 1⟩]⟩ := by
  decide

/-- Claim C3, amended: applying the same valid patch twice yields the same
final task state and the second application appends zero Activities and
performs no write — provided the patch's fields are already in the stored
form the handler's raw-string gates compare against: the status, when
present and raw-different from the stored status, is the canonical column
key (it resolves to itself), and the title/description, when present and
raw-different, are already trimmed (the schema's `trim: true` setters store
the trimmed value while the gate compares the raw patch string).  A patch
whose status is a non-canonical alias of the task's column, or whose
title/description carries leading/trailing whitespace, re-fires its branch
— appending an Activity and writing — on every application. -/
theorem c3_idempotent_for_canonical_status (columns : List Column)
    (t : Task) (p : TaskPatch) (now now2 : Nat) (r1 : Task) (ch1 : Bool)
    (_hv : p.isValid = true)
    (htrim : ∀ x, p.title = some x → x ≠ t.title → jsTrim x = x)
    (hdtrim : ∀ x, p.description = some x → x ≠ t.description →
      jsTrim x = x)
    (hcanon : ∀ s, p.status = some s → s ≠ t.status →
      resolveStatusKey columns (some s) = some s)
    (h1 : applyUpdate columns t p now = Except.ok (r1, ch1)) :
    applyUpdate columns r1 p now2 = Except.ok (r1, false) := by
  rw [applyUpdate_eq] at h1
  cases hok : statusOKB columns t.status p with
  | false =>
    rw [hok] at h1
    simp at h1
  | true =>
    rw [hok, if_pos rfl] at h1
    rw [Except.ok.injEq, Prod.mk.injEq] at h1
    obtain ⟨hr, hch⟩ := h1
    refine applyUpdate_eq_self columns r1 p now2 ?_ ?_ ?_ ?_ ?_
    · intro x hx
      rw [← hr]
      by_cases hxe : x = t.title
      · simp [updTitle, hx, hxe]
      · simp [updTitle, hx, hxe, htrim x hx hxe]
    · intro x hx
      rw [← hr]
      by_cases hxe : x = t.description
      · simp [updDescription, hx, hxe]
      · simp [updDescription, hx, hxe, hdtrim x hx hxe]
    · intro x hx
      rw [← hr]
      by_cases hse : x = t.status
      · simp [updStatusKey, hx, hse]
      · simp [updStatusKey, hx, hse, hcanon x hx hse]
    · intro x hx
      rw [← hr]
      simp [updPriority, hx]
    · intro x hx
      rw [← hr]
      simp [updDueDate, hx]

/-- Witness for the amended C3: a canonical patch `{title: "X", status:
"done"}` applied a second time to the first application's result is a
no-op. -/
theorem c3_idempotent_for_canonical_status_witness :
    applyUpdate [⟨"todo", "To Do"⟩, ⟨"done", "Done"⟩]
        ⟨"X", "", "done", none, Priority.medium,
          [⟨ActivityType.update, "Title updated", 1⟩,
           ⟨ActivityType.status, "Moved to Done", 1⟩]⟩
        ⟨some "X", none, some "done", none, none⟩ 2 =
      Except.ok (⟨"X", "", "done", none, Priority.medium,
        [⟨ActivityType.update, "Title updated", 1⟩,
         ⟨ActivityType.status, "Moved to Done", 1⟩]⟩, false) :=
  c3_idempotent_for_canonical_status [⟨"todo", "To Do"⟩, ⟨"done", "Done"⟩]
    ⟨"A", "", "todo", none, Priority.medium, []⟩
    ⟨some "X", none, some "done", none, none⟩ 1 2
    ⟨"X", "", "done", none, Priority.medium,
      [⟨ActivityType.update, "Title updated", 1⟩,
       ⟨ActivityType.status, "Moved to Done", 1⟩]⟩ true
    (by decide)
    (by
      intro x hx hne
      obtain rfl : x = "X" := (Option.some.inj hx).symm
      decide)
    (fun x hx => nomatch hx)
    (by
      intro s hs hne
      obtain rfl : s = "done" := (Option.some.inj hs).symm
      decide)
    (by decide)

/-- Two strings with different length-2 prefixes stay different after
appending arbitrary suffixes. -/
theorem append_ne_append_of_take2_ne {pre1 pre2 : String}
    (h2a : 2 ≤ pre1.data.length) (h2b : 2 ≤ pre2.data.length)
    (hne : pre1.data.take 2 ≠ pre2.data.take 2) (x y : String) :
    pre1 ++ x ≠ pre2 ++ y := by
  intro he
  apply hne
  have h := congrArg (fun s => s.data.take 2) he
  simp only [String.data_append] at h
  rw [List.take_append_of_le_length h2a,
    List.take_append_of_le_length h2b] at h
  exact h

/-- A constant is different from every extension of a prefix whose first
two characters differ from the constant's. -/
theorem const_ne_append_of_take2_ne {c pre : String}
    (h2b : 2 ≤ pre.data.length) (hne : c.data.take 2 ≠ pre.data.take 2)
    (x : String) : c ≠ pre ++ x := by
  intro he
  apply hne
  have h := congrArg (fun s => s.data.take 2) he
  simp only [String.data_append] at h
  rw [List.take_append_of_le_length h2b] at h
  exact h

/-- Claim C7: in every successful update with a valid patch, each of title,
description, status, priority and dueDate that is absent from the patch is
byte-identical to its pre-update value in the result, and none of the
appended Activities belongs to an absent field (status Activities carry
kind `status`; the other fields are identified by their fixed message
shapes). -/
theorem c7_absent_fields_untouched (columns : List Column) (t : Task)
    (p : TaskPatch) (now : Nat) (r : Task) (ch : Bool)
    (_hv : p.isValid = true)
    (h : applyUpdate columns t p now = Except.ok (r, ch)) :
    (p.title = none → r.title = t.title) ∧
    (p.description = none → r.description = t.description) ∧
    (p.status = none → r.status = t.status) ∧
    (p.priority = none → r.priority = t.priority) ∧
    (p.dueDate = none → r.dueDate = t.dueDate) ∧
    (∀ a ∈ r.activities.drop t.activities.length,
      (p.title = none → a.message ≠ "Title updated") ∧
      (p.description = none → a.message ≠ "Description updated") ∧
      (p.status = none → a.type ≠ ActivityType.status) ∧
      (p.priority = none →
        ∀ q : Priority, a.message ≠ "Priority set to " ++ q.text) ∧
      (p.dueDate = none → a.message ≠ "Due date cleared" ∧
        ∀ d, a.message ≠ "Due date set to " ++ d)) := by
  rw [applyUpdate_eq] at h
  cases hok : statusOKB columns t.status p with
  | false =>
    rw [hok] at h
    simp at h
  | true =>
    rw [hok, if_pos rfl] at h
    rw [Except.ok.injEq, Prod.mk.injEq] at h
    obtain ⟨hr, hch⟩ := h
    subst hr
    refine ⟨?_, ?_, ?_, ?_, ?_, ?_⟩
    · intro hp
      simp [updTitle, hp]
    · intro hp
      simp [updDescription, hp]
    · intro hp
      simp [updStatusKey, hp]
    · intro hp
      simp [updPriority, hp]
    · intro hp
      simp [updDueDate, hp]
    · intro a ha
      dsimp only at ha
      rw [List.drop_left] at ha
      simp only [allDeltas, List.mem_append] at ha
      rcases ha with h1 | h2 | h3 | h4 | h5
      · obtain ⟨hty, hmsg⟩ := mem_titleDelta h1
        refine ⟨?_, ?_, ?_, ?_, ?_⟩
        · intro hp
          rw [titleDelta_none hp] at h1
          simp at h1
        · intro _
          rw [hmsg]
          decide
        · intro _
          rw [hty]
          decide
        · intro _ q
          rw [hmsg]
          cases q <;> decide
        · intro _
          refine ⟨by rw [hmsg]; decide, ?_⟩
          intro d
          rw [hmsg]
          exact const_ne_append_of_take2_ne (by decide) (by decide) d
      · obtain ⟨hty, hmsg⟩ := mem_descriptionDelta h2
        refine ⟨?_, ?_, ?_, ?_, ?_⟩
        · intro _
          rw [hmsg]
          decide
        · intro hp
          rw [descriptionDelta_none hp] at h2
          simp at h2
        · intro _
          rw [hty]
          decide
        · intro _ q
          rw [hmsg]
          cases q <;> decide
        · intro _
          refine ⟨by rw [hmsg]; decide, ?_⟩
          intro d
          rw [hmsg]
          exact const_ne_append_of_take2_ne (by decide) (by decide) d
      · obtain ⟨hty, x, hmsg⟩ := mem_statusDelta h3
        refine ⟨?_, ?_, ?_, ?_, ?_⟩
        · intro _
          rw [hmsg]
          exact Ne.symm (const_ne_append_of_take2_ne (by decide)
            (by decide) x)
        · intro _
          rw [hmsg]
          exact Ne.symm (const_ne_append_of_take2_ne (by decide)
            (by decide) x)
        · intro hp
          rw [statusDelta_none hp] at h3
          simp at h3
        · intro _ q
          rw [hmsg]
          exact append_ne_append_of_take2_ne (by decide) (by decide)
            (by decide) x q.text
        · intro _
          refine ⟨?_, ?_⟩
          · rw [hmsg]
            exact Ne.symm (const_ne_append_of_take2_ne (by decide)
              (by decide) x)
          · intro d
            rw [hmsg]
            exact append_ne_append_of_take2_ne (by decide) (by decide)
              (by decide) x d
      · obtain ⟨hty, q0, hmsg⟩ := mem_priorityDelta h4
        refine ⟨?_, ?_, ?_, ?_, ?_⟩
        · intro _
          rw [hmsg]
          exact Ne.symm (const_ne_append_of_take2_ne (by decide)
            (by decide) q0.text)
        · intro _
          rw [hmsg]
          exact Ne.symm (const_ne_append_of_take2_ne (by decide)
            (by decide) q0.text)
        · intro _
          rw [hty]
          decide
        · intro hp _
          rw [priorityDelta_none hp] at h4
          simp at h4
        · intro _
          refine ⟨?_, ?_⟩
          · rw [hmsg]
            exact Ne.symm (const_ne_append_of_take2_ne (by decide)
              (by decide) q0.text)
          · intro d
            rw [hmsg]
            exact append_ne_append_of_take2_ne (by decide) (by decide)
              (by decide) q0.text d
      · obtain ⟨hty, hmsg⟩ := mem_dueDateDelta h5
        refine ⟨?_, ?_, ?_, ?_, ?_⟩
        · intro _
          rcases hmsg with hm | ⟨d, hm⟩
          · rw [hm]
            decide
          · rw [hm]
            exact Ne.symm (const_ne_append_of_take2_ne (by decide)
              (by decide) d)
        · intro _
          rcases hmsg with hm | ⟨d, hm⟩
          · rw [hm]
            decide
          · rw [hm]
            exact Ne.symm (const_ne_append_of_take2_ne (by decide)
              (by decide) d)
        · intro _
          rw [hty]
          decide
        · intro _ q
          rcases hmsg with hm | ⟨d, hm⟩
          · rw [hm]
            cases q <;> decide
          · rw [hm]
            exact append_ne_append_of_take2_ne (by decide) (by decide)
              (by decide) d q.text
        · intro hp
          rw [dueDateDelta_none hp] at h5
          simp at h5

/-- Witness for C7: the patch `{title: "U"}` against the task
`⟨"T", "d", "todo", some 5, low, []⟩` leaves description, status, priority
and dueDate byte-identical, and the one appended Activity is not a status
Activity. -/
theorem c7_absent_fields_untouched_witness :
    (⟨"U", "d", "todo", some 5, Priority.low,
      [⟨ActivityType.update, "Title updated", 7⟩]⟩ : Task).description =
        "d" ∧
    (⟨"U", "d", "todo", some 5, Priority.low,
      [⟨ActivityType.update, "Title updated", 7⟩]⟩ : Task).status =
        "todo" ∧
    (⟨"U", "d", "todo", some 5, Priority.low,
      [⟨ActivityType.update, "Title updated", 7⟩]⟩ : Task).priority =
        Priority.low ∧
    (⟨"U", "d", "todo", some 5, Priority.low,
      [⟨ActivityType.update, "Title updated", 7⟩]⟩ : Task).dueDate =
        some 5 ∧
    (⟨ActivityType.update, "Title updated", 7⟩ : Activity).type ≠
      ActivityType.status := by
  have h := c7_absent_fields_untouched [⟨"todo", "To Do"⟩]
    ⟨"T", "d", "todo", some 5, Priority.low, []⟩
    ⟨some "U", none, none, none, none⟩ 7
    ⟨"U", "d", "todo", some 5, Priority.low,
      [⟨ActivityType.update, "Title updated", 7⟩]⟩ true
    (by decide) (by decide)
  exact ⟨h.2.1 rfl, h.2.2.1 rfl, h.2.2.2.1 rfl, h.2.2.2.2.1 rfl,
    (h.2.2.2.2.2 ⟨ActivityType.update, "Title updated", 7⟩
      (by decide)).2.2.1 rfl⟩

/-- Claim C9: a successful deletion with an explicit, non-empty, distinct,
existing migration target rewrites every member task's status to the
target, removes the column, and preserves the status-resolves-to-an-owned-
column invariant (no surviving task references the deleted key).  The
per-owner key uniqueness (`hnd`) is the store's `(userId, key)` unique
index. -/
theorem c9_migration_preserves_invariant (columns : List Column)
    (tasks : List Task) (key m : String) (cols2 : List Column)
    (tasks2 : List Task)
    (hnd : (columns.map (·.key)).Nodup)
    (hinv : ∀ t ∈ tasks, t.status ∈ columns.map (·.key))
    (hm : m ≠ "")
    (h : deleteColumn columns tasks key (some m) =
      Except.ok (cols2, tasks2)) :
    ∃ c, columns.find? (fun c =>
        c.key == key || jsToLower c.label == jsToLower key) = some c ∧
      c.key ∉ cols2.map (·.key) ∧
      m ∈ cols2.map (·.key) ∧
      (∀ t ∈ tasks, t.status = c.key → { t with status := m } ∈ tasks2) ∧
      (∀ t ∈ tasks, t.status ≠ c.key → t ∈ tasks2) ∧
      (∀ t2 ∈ tasks2, t2.status ≠ c.key) ∧
      (∀ t2 ∈ tasks2, t2.status ∈ cols2.map (·.key)) := by
  simp only [deleteColumn] at h
  by_cases hlen : columns.length ≤ 1
  · rw [if_pos hlen] at h
    exact absurd h (by simp)
  rw [if_neg hlen] at h
  cases hfind : columns.find? (fun c =>
      c.key == key || jsToLower c.label == jsToLower key) with
  | none =>
    rw [hfind] at h
    exact absurd h (by simp)
  | some c =>
    rw [hfind] at h
    dsimp only at h
    rw [if_pos hm] at h
    dsimp only at h
    by_cases h1 : (m == "" || m == c.key) = true
    · rw [if_pos h1] at h
      exact absurd h (by simp)
    rw [if_neg h1] at h
    by_cases h2 : (!(columns.any fun x => x.key == m)) = true
    · rw [if_pos h2] at h
      exact absurd h (by simp)
    rw [if_neg h2] at h
    rw [Except.ok.injEq, Prod.mk.injEq] at h
    obtain ⟨hcols, htasks⟩ := h
    subst hcols
    subst htasks
    have hmc : m ≠ c.key := by
      intro he
      exact h1 (by simp [he])
    have hmk : m ∈ columns.map (·.key) := by
      have hany : (columns.any fun x => x.key == m) = true := by
        by_contra hf
        apply h2
        simp only [Bool.not_eq_true] at hf
        rw [hf]
        rfl
      simp only [List.any_eq_true, beq_iff_eq] at hany
      obtain ⟨x, hx, hxk⟩ := hany
      rw [← hxk]
      exact List.mem_map_of_mem _ hx
    refine ⟨c, rfl, key_not_mem_deleteFirstByKey hnd,
      mem_keys_deleteFirstByKey_of_ne hmk hmc, ?_, ?_, ?_, ?_⟩
    · intro t ht hst
      have : (fun t => if t.status = c.key then { t with status := m }
          else t) t = { t with status := m } := by
        simp [hst]
      rw [← this]
      exact List.mem_map_of_mem _ ht
    · intro t ht hst
      have : (fun t => if t.status = c.key then { t with status := m }
          else t) t = t := by
        simp [hst]
      rw [← this]
      exact List.mem_map_of_mem _ ht
    · intro t2 ht2
      obtain ⟨t, ht, hft⟩ := List.mem_map.mp ht2
      by_cases hst : t.status = c.key
      · rw [← hft]
        simp [hst, hmc]
      · rw [← hft]
        simp [hst]
    · intro t2 ht2
      obtain ⟨t, ht, hft⟩ := List.mem_map.mp ht2
      by_cases hst : t.status = c.key
      · rw [← hft]
        simp only [hst, if_pos rfl]
        exact mem_keys_deleteFirstByKey_of_ne hmk hmc
      · rw [← hft]
        simp only [if_neg hst]
        exact mem_keys_deleteFirstByKey_of_ne (hinv t ht) hst

/-- Witness for C9: deleting `"doing"` with target `"done"` migrates both
member tasks; the third task is untouched. -/
theorem c9_migration_preserves_invariant_witness :
    ∃ c, [(⟨"todo", "To Do"⟩ : Column), ⟨"doing", "Doing"⟩,
        ⟨"done", "Done"⟩].find? (fun c =>
        c.key == "doing" || jsToLower c.label == jsToLower "doing") =
      some c ∧
      c.key ∉ [(⟨"todo", "To Do"⟩ : Column),
        ⟨"done", "Done"⟩].map (·.key) ∧
      "done" ∈ [(⟨"todo", "To Do"⟩ : Column),
        ⟨"done", "Done"⟩].map (·.key) ∧
      (∀ t ∈ [(⟨"A", "", "doing", none, Priority.medium, []⟩ : Task),
          ⟨"B", "", "doing", none, Priority.high, []⟩,
          ⟨"C", "", "todo", none, Priority.low, []⟩],
        t.status = c.key → { t with status := "done" } ∈
          [(⟨"A", "", "done", none, Priority.medium, []⟩ : Task),
           ⟨"B", "", "done", none, Priority.high, []⟩,
           ⟨"C", "", "todo", none, Priority.low, []⟩]) ∧
      (∀ t ∈ [(⟨"A", "", "doing", none, Priority.medium, []⟩ : Task),
          ⟨"B", "", "doing", none, Priority.high, []⟩,
          ⟨"C", "", "todo", none, Priority.low, []⟩],
        t.status ≠ c.key → t ∈
          [(⟨"A", "", "done", none, Priority.medium, []⟩ : Task),
           ⟨"B", "", "done", none, Priority.high, []⟩,
           ⟨"C", "", "todo", none, Priority.low, []⟩]) ∧
      (∀ t2 ∈ [(⟨"A", "", "done", none, Priority.medium, []⟩ : Task),
          ⟨"B", "", "done", none, Priority.high, []⟩,
          ⟨"C", "", "todo", none, Priority.low, []⟩],
        t2.status ≠ c.key) ∧
      (∀ t2 ∈ [(⟨"A", "", "done", none, Priority.medium, []⟩ : Task),
          ⟨"B", "", "done", none, Priority.high, []⟩,
          ⟨"C", "", "todo", none, Priority.low, []⟩],
        t2.status ∈ [(⟨"todo", "To Do"⟩ : Column),
          ⟨"done", "Done"⟩].map (·.key)) :=
  c9_migration_preserves_invariant
    [⟨"todo", "To Do"⟩, ⟨"doing", "Doing"⟩, ⟨"done", "Done"⟩]
    [⟨"A", "", "doing", none, Priority.medium, []⟩,
     ⟨"B", "", "doing", none, Priority.high, []⟩,
     ⟨"C", "", "todo", none, Priority.low, []⟩]
    "doing" "done"
    [⟨"todo", "To Do"⟩, ⟨"done", "Done"⟩]
    [⟨"A", "", "done", none, Priority.medium, []⟩,
     ⟨"B", "", "done", none, Priority.high, []⟩,
     ⟨"C", "", "todo", none, Priority.low, []⟩]
    (by decide) (by decide) (by decide) (by decide)

/-- Claim C10: column deletion locates the column by exact key or,
failing that, by case-insensitive label match.  For an owner with more
than one column (non-empty, per-owner-unique keys), a delete request
naming an existing column by its display label in any letter case — here,
`k` matching exactly one column `c` case-insensitively by label — succeeds
(no not-found error, using the first remaining column as the default
migration target) and deletes that column, keeping all the others. -/
theorem c10_delete_locates_by_label (columns : List Column)
    (tasks : List Task) (k : String) (c : Column)
    (hnd : (columns.map (·.key)).Nodup)
    (hkeys : ∀ x ∈ columns, x.key ≠ "")
    (hlen : 2 ≤ columns.length)
    (hc : c ∈ columns)
    (hlabel : jsToLower c.label = jsToLower k)
    (huniq : ∀ x ∈ columns,
      (x.key == k || jsToLower x.label == jsToLower k) = true → x = c) :
    ∃ cols2 tasks2,
      deleteColumn columns tasks k none = Except.ok (cols2, tasks2) ∧
      c ∉ cols2 ∧ c.key ∉ cols2.map (·.key) ∧
      (∀ x ∈ columns, x ≠ c → x ∈ cols2) := by
  have hfind : columns.find? (fun x =>
      x.key == k || jsToLower x.label == jsToLower k) = some c :=
    find?_eq_of_unique hc (by simp [hlabel]) huniq
  have hex : ∃ x ∈ columns, x.key ≠ c.key := by
    cases columns with
    | nil => simp at hlen
    | cons a rest =>
      cases rest with
      | nil => simp at hlen
      | cons b rest2 =>
        simp only [List.map_cons, List.nodup_cons, List.mem_cons,
          List.mem_map, not_or] at hnd
        by_cases hac : a.key = c.key
        · refine ⟨b, by simp, fun hbc => ?_⟩
          exact hnd.1.1 (hac.trans hbc.symm)
        · exact ⟨a, by simp, hac⟩
  obtain ⟨f0, hf0mem, hf0ne⟩ := hex
  have hfb : ∃ fb, columns.find? (fun x => x.key != c.key) = some fb ∧
      fb.key ≠ c.key := by
    have hsome : (columns.find? (fun x => x.key != c.key)).isSome :=
      List.find?_isSome.mpr ⟨f0, hf0mem, by simp [hf0ne]⟩
    cases hf : columns.find? (fun x => x.key != c.key) with
    | none =>
      rw [hf] at hsome
      simp at hsome
    | some fb =>
      refine ⟨fb, rfl, ?_⟩
      have := List.find?_some hf
      simpa using this
  obtain ⟨fb, hfbeq, hfbne⟩ := hfb
  have hfbmem : fb ∈ columns := List.mem_of_find?_eq_some hfbeq
  have hfbkey : fb.key ≠ "" := hkeys fb hfbmem
  refine ⟨deleteFirstByKey columns c.key,
    tasks.map (fun t => if t.status = c.key then { t with status := fb.key }
      else t), ?_, ?_, key_not_mem_deleteFirstByKey hnd, ?_⟩
  · simp only [deleteColumn]
    rw [if_neg (by omega : ¬columns.length ≤ 1), hfind]
    dsimp only
    rw [hfbeq]
    simp only [Option.map_some']
    rw [if_neg (by simp [hfbkey, hfbne])]
    rw [if_neg (by
      intro hfalse
      have hany : (columns.any fun x => x.key == fb.key) = true :=
        List.any_eq_true.mpr ⟨fb, hfbmem, by simp⟩
      rw [hany] at hfalse
      simp at hfalse)]
  · intro hmem
    exact key_not_mem_deleteFirstByKey hnd (List.mem_map_of_mem _ hmem)
  · intro x hx hxc
    exact mem_deleteFirstByKey_of_ne hnd hc hx hxc

/-- Witness for C10: deleting by the label spelling `"dOnE"` removes the
column `{key: "done", label: "Done"}` and keeps `"todo"`. -/
theorem c10_delete_locates_by_label_witness :
    ∃ cols2 tasks2,
      deleteColumn [⟨"todo", "To Do"⟩, ⟨"done", "Done"⟩]
          [⟨"T", "", "done", none, Priority.medium, []⟩] "dOnE" none =
        Except.ok (cols2, tasks2) ∧
      (⟨"done", "Done"⟩ : Column) ∉ cols2 ∧
      (⟨"done", "Done"⟩ : Column).key ∉ cols2.map (·.key) ∧
      (∀ x ∈ [(⟨"todo", "To Do"⟩ : Column), ⟨"done", "Done"⟩],
        x ≠ ⟨"done", "Done"⟩ → x ∈ cols2) :=
  c10_delete_locates_by_label [⟨"todo", "To Do"⟩, ⟨"done", "Done"⟩]
    [⟨"T", "", "done", none, Priority.medium, []⟩] "dOnE"
    ⟨"done", "Done"⟩ (by decide) (by decide) (by decide) (by decide)
    (by decide) (by decide)

end KanBan

